import Mathlib

/-!
Verification of the CloudFS cache layer (`src/cloudfs/cache_layer.c`).

The C file maintains two process-wide counters (`Total_space`,
`Remaining_space`), a cache directory of compressed segment files keyed
by MD5 key (each carrying a last-touched timestamp stored as an
extended attribute), and talks to a remote object store
(`cloud_get_object` / `cloud_put_object` / `cloud_delete_object`) and a
compression codec.  We embed that state as `CacheState`: the local
cache directory becomes an association list of `Seg` records, the
remote store a list of keys.  Machine `long` arithmetic is modelled by
`Int` (no claim under consideration depends on 64-bit overflow) and
file sizes by `Nat`.

Every fallible collaborator call (lstat, remove, setxattr/clock,
compress, decompress, cloud get/put/delete) has its outcome supplied by
an explicit environment record, mirroring exactly where the C code
checks the outcome and where it ignores it (the cloud calls only have
their error printed by `cloud_print_error`; the return value is not
inspected).  Each operation returns its C return value, the new state,
and the list of remote-store / decompression calls it performed.
-/

/-- Segment keys (MD5 strings in the C code). -/
abbrev Key := String

/-- `CANNOT_EVICT` return code, `#define CANNOT_EVICT (100)` (src line 20). -/
def CANNOT_EVICT : Int := 100

/-- One segment file in the cache directory: its key (file name), its
compressed on-disk size (`st_size`), and its last-touched timestamp
(the `user.timestamp` extended attribute; `0` when never set). -/
structure Seg where
  key : Key
  size : Nat
  ts : Nat
deriving DecidableEq

/-- The state the cache layer acts on: the two counters, the cache
directory contents, and the set of keys present in the remote store. -/
structure CacheState where
  total : Int
  remaining : Int
  localSegs : List Seg
  remote : List Key
deriving DecidableEq

/-- External calls an operation performed, in order: remote-store
get/put/delete (with the outcome the collaborator reported) and codec
decompression to a target file. -/
inductive CEvent where
  | cloudGet (key : Key) (ok : Bool)
  | cloudPut (key : Key) (ok : Bool)
  | cloudDelete (key : Key) (ok : Bool)
  | decompressTo (src : String) (dst : String) (ok : Bool)
deriving DecidableEq

/-- Result of one gateway operation: the C function's return value, the
state after the call, and the external calls made. -/
structure OpResult where
  retval : Int
  state : CacheState
  events : List CEvent
deriving DecidableEq

/-- Look a key up in the cache directory (the C code's
`access(cache_file, F_OK)` / `lstat` pair). -/
def segLookup : List Seg → Key → Option Seg
  | [], _ => none
  | g :: l, k => if g.key = k then some g else segLookup l k

/-- Delete a key's file from the cache directory (`remove(cache_file)`). -/
def segErase : List Seg → Key → List Seg
  | [], _ => []
  | g :: l, k => if g.key = k then segErase l k else g :: segErase l k

/-- Create (or overwrite) a key's file in the cache directory with a
fresh file of the given size; a fresh file has no timestamp attribute. -/
def segInsert (l : List Seg) (k : Key) (sz : Nat) : List Seg :=
  ⟨k, sz, 0⟩ :: segErase l k

/-- `update_timestamp` (src lines 64-87): set the key's timestamp
attribute to the current clock value. -/
def segTouch : List Seg → Key → Nat → List Seg
  | [], _, _ => []
  | g :: l, k, n => if g.key = k then ⟨g.key, g.size, n⟩ :: segTouch l k n
                    else g :: segTouch l k n

/-- Keys of the cache directory listing. -/
def segKeys (l : List Seg) : List Key := l.map (fun g => g.key)

/-- The cache directory holds at most one file per key. -/
def segsWF (l : List Seg) : Prop := (segKeys l).Nodup

/-- Total compressed bytes occupied by the cache directory. -/
def sumLocal (l : List Seg) : Int := (l.map (fun g => (g.size : Int))).sum

/-- Is the key present in the cache directory (`access(…, F_OK) == 0`)? -/
def isLocal (s : CacheState) (k : Key) : Bool := (segLookup s.localSegs k).isSome

/-- Effect of `cloud_delete_object` on the remote store when it succeeds. -/
def remoteErase : List Key → Key → List Key
  | [], _ => []
  | x :: r, k => if x = k then remoteErase r k else x :: remoteErase r k

/-- Effect of `cloud_put_object` on the remote store when it succeeds. -/
def remoteInsert (r : List Key) (k : Key) : List Key :=
  if k ∈ r then r else k :: r

/-- `cloud_delete_object` (its error is only printed by the C code):
on success the key disappears from the remote store. -/
def cloud_delete_object (s : CacheState) (k : Key) (ok : Bool) : CacheState :=
  if ok then ⟨s.total, s.remaining, s.localSegs, remoteErase s.remote k⟩ else s

/-- `cloud_put_object` (its error is only printed by the C code):
on success the key appears in the remote store. -/
def cloud_put_object (s : CacheState) (k : Key) (ok : Bool) : CacheState :=
  if ok then ⟨s.total, s.remaining, s.localSegs, remoteInsert s.remote k⟩ else s

/-- `cache_layer_init` (src lines 46-55): set the counters and return 0.
There is no validation of the arguments. -/
def cache_layer_init (total_space init_space : Int) : Int × CacheState :=
  (0, ⟨total_space, total_space - init_space, [], []⟩)

/-- `evict_segments` (src lines 105-109).  The function is a stub: it
ignores `keep`, changes nothing, and returns 0 — it never evicts a
segment and never returns `CANNOT_EVICT`, although its own doc comment
(src lines 89-104) documents the full least-referenced-then-LRU policy
with `CANNOT_EVICT` for the infeasible case. -/
def evict_segments : Key → CacheState → Int × CacheState := fun _ s => (0, s)

/-- Collaborator outcomes for one `cache_layer_download_seg` call:
whether `cloud_get_object` reports success, the `st_size` of the cache
file after the fetch attempt (`fopen("wb")` creates the file even when
the get fails), and the outcomes of `lstat`, `update_timestamp`,
`compress_layer_decompress`, `remove`, `cloud_delete_object`, plus the
clock value `update_timestamp` would store. -/
structure DownloadEnv where
  cloudGetOk : Bool
  fetchedSize : Nat
  lstatOk : Bool
  touchOk : Bool
  decompressOk : Bool
  removeOk : Bool
  cloudDeleteOk : Bool
  now : Nat
deriving DecidableEq

/-- All collaborator calls a download could make succeed. -/
def DownloadEnv.allOk (e : DownloadEnv) : Bool :=
  e.cloudGetOk && e.lstatOk && e.touchOk && e.decompressOk && e.removeOk &&
    e.cloudDeleteOk

/-- `cache_layer_download_seg` (src lines 123-212), parameterised by the
eviction routine it calls at src line 155 (the file's own routine is
the stub `evict_segments`).  Mirrors the C control flow branch by
branch; error returns are modelled as `-1` (the C code returns the
negative `cloudfs_error` value). -/
def downloadWith (ev : Key → CacheState → Int × CacheState)
    (cdir : String) (env : DownloadEnv) (target_file : String) (key : Key)
    (s : CacheState) : OpResult :=
  let cache_file := cdir ++ "/" ++ key
  match segLookup s.localSegs key with
  | some _ =>
    /- segment found in cache (src lines 196-206) -/
    if env.touchOk then
      let s1 : CacheState :=
        ⟨s.total, s.remaining, segTouch s.localSegs key env.now, s.remote⟩
      if env.decompressOk then
        ⟨0, s1, [CEvent.decompressTo cache_file target_file true]⟩
      else ⟨-1, s1, [CEvent.decompressTo cache_file target_file false]⟩
    else ⟨-1, s, []⟩
  | none =>
    /- segment not in cache (src lines 131-195): fetch into the cache
       directory, then account for its size -/
    let ev0 := [CEvent.cloudGet key env.cloudGetOk]
    let s1 : CacheState :=
      ⟨s.total, s.remaining, segInsert s.localSegs key env.fetchedSize, s.remote⟩
    if env.lstatOk then
      let s2 : CacheState :=
        ⟨s1.total, s1.remaining - (env.fetchedSize : Int), s1.localSegs, s1.remote⟩
      if s2.remaining < 0 then
        let er := ev key s2
        if er.1 = CANNOT_EVICT then
          /- cannot evict: restore the reservation, decompress from the
             just-fetched bytes, delete them (src lines 156-168) -/
          let s3 : CacheState :=
            ⟨er.2.total, er.2.remaining + (env.fetchedSize : Int),
              er.2.localSegs, er.2.remote⟩
          if env.decompressOk then
            let evs := ev0 ++ [CEvent.decompressTo cache_file target_file true]
            if env.removeOk then
              ⟨0, ⟨s3.total, s3.remaining, segErase s3.localSegs key, s3.remote⟩,
                evs⟩
            else ⟨-1, s3, evs⟩
          else ⟨-1, s3, ev0 ++ [CEvent.decompressTo cache_file target_file false]⟩
        else if er.1 < 0 then ⟨er.1, er.2, ev0⟩
        else
          /- eviction finished (src lines 171-182) -/
          if env.touchOk then
            let s3 : CacheState :=
              ⟨er.2.total, er.2.remaining, segTouch er.2.localSegs key env.now,
                er.2.remote⟩
            ⟨0, cloud_delete_object s3 key env.cloudDeleteOk,
              ev0 ++ [CEvent.cloudDelete key env.cloudDeleteOk]⟩
          else ⟨-1, er.2, ev0⟩
      else
        /- remaining space is enough (src lines 183-195) -/
        if env.touchOk then
          let s3 : CacheState :=
            ⟨s2.total, s2.remaining, segTouch s2.localSegs key env.now, s2.remote⟩
          ⟨0, cloud_delete_object s3 key env.cloudDeleteOk,
            ev0 ++ [CEvent.cloudDelete key env.cloudDeleteOk]⟩
        else ⟨-1, s2, ev0⟩
    else ⟨-1, s1, ev0⟩

/-- The download operation as compiled: src line 155 calls the file's
own stub `evict_segments`. -/
def cache_layer_download_seg (cdir : String) (env : DownloadEnv)
    (target_file : String) (key : Key) (s : CacheState) : OpResult :=
  downloadWith evict_segments cdir env target_file key s

/-- Collaborator outcomes for one `cache_layer_upload_seg` call:
the codec's result (`none` models a negative `compress_layer_compress`
return, `some clen` a compressed file of `clen` bytes), and the
outcomes of `cloud_put_object`, `remove`, `update_timestamp`, plus the
clock value. -/
structure UploadEnv where
  compressResult : Option Nat
  cloudPutOk : Bool
  removeOk : Bool
  touchOk : Bool
  now : Nat
deriving DecidableEq

/-- All collaborator calls an upload could make succeed. -/
def UploadEnv.allOk (e : UploadEnv) : Bool :=
  e.compressResult.isSome && e.cloudPutOk && e.removeOk && e.touchOk

/-- `cache_layer_upload_seg` (src lines 226-269).  The codec writes the
compressed segment into the cache directory first; only then is the
size compared against `Remaining_space`. -/
def cache_layer_upload_seg (cdir : String) (env : UploadEnv)
    (fpath : String) (offset : Int) (key : Key) (len : Int)
    (s : CacheState) : OpResult :=
  match env.compressResult with
  | none => ⟨-1, s, []⟩
  | some clen =>
    let s1 : CacheState :=
      ⟨s.total, s.remaining, segInsert s.localSegs key clen, s.remote⟩
    if s1.remaining < (clen : Int) then
      /- not enough space: push to the cloud, delete the local compressed
         file (src lines 240-253) -/
      let s2 := cloud_put_object s1 key env.cloudPutOk
      if env.removeOk then
        ⟨0, ⟨s2.total, s2.remaining, segErase s2.localSegs key, s2.remote⟩,
          [CEvent.cloudPut key env.cloudPutOk]⟩
      else ⟨-1, s2, [CEvent.cloudPut key env.cloudPutOk]⟩
    else
      /- enough space: touch the timestamp and reserve (src lines 254-263) -/
      if env.touchOk then
        ⟨0, ⟨s1.total, s1.remaining - (clen : Int),
            segTouch s1.localSegs key env.now, s1.remote⟩, []⟩
      else ⟨-1, s1, []⟩

/-- Collaborator outcomes for one `cache_layer_remove_seg` call. -/
structure RemoveEnv where
  lstatOk : Bool
  removeOk : Bool
  cloudDeleteOk : Bool
deriving DecidableEq

/-- All collaborator calls a remove could make succeed. -/
def RemoveEnv.allOk (e : RemoveEnv) : Bool :=
  e.lstatOk && e.removeOk && e.cloudDeleteOk

/-- `cache_layer_remove_seg` (src lines 278-310): delete from the cache
directory (releasing the space) when present there, otherwise delete
the remote object. -/
def cache_layer_remove_seg (cdir : String) (env : RemoveEnv) (key : Key)
    (s : CacheState) : OpResult :=
  match segLookup s.localSegs key with
  | none =>
    ⟨0, cloud_delete_object s key env.cloudDeleteOk,
      [CEvent.cloudDelete key env.cloudDeleteOk]⟩
  | some g =>
    if env.lstatOk then
      if env.removeOk then
        ⟨0, ⟨s.total, s.remaining + (g.size : Int), segErase s.localSegs key,
            s.remote⟩, []⟩
      else ⟨-1, s, []⟩
    else ⟨-1, s, []⟩

/-- One gateway operation together with its arguments and collaborator
outcomes. -/
inductive GatewayOp where
  | down (env : DownloadEnv) (target_file : String) (key : Key)
  | up (env : UploadEnv) (fpath : String) (offset : Int) (key : Key) (len : Int)
  | rem (env : RemoveEnv) (key : Key)

/-- Run one gateway operation. -/
def applyOp (cdir : String) (op : GatewayOp) (s : CacheState) : OpResult :=
  match op with
  | .down env t k => cache_layer_download_seg cdir env t k s
  | .up env f o k l => cache_layer_upload_seg cdir env f o k l s
  | .rem env k => cache_layer_remove_seg cdir env k s

/-- Run a sequence of gateway operations, threading the state. -/
def runOps (cdir : String) : List GatewayOp → CacheState → CacheState
  | [], s => s
  | op :: rest, s => runOps cdir rest (applyOp cdir op s).state

/-- The space-accounting invariant of §8 of the spec:
`remaining_space = total_space − Σ stored_size of Local segments`. -/
def spaceInv (s : CacheState) : Prop :=
  s.remaining = s.total - sumLocal s.localSegs

/-- The key is both in the cache directory and in the remote store. -/
def bothLocalAndRemote (s : CacheState) (k : Key) : Prop :=
  isLocal s k = true ∧ k ∈ s.remote

/-- The mutual-exclusivity invariant of §3/§8 of the spec: no key is
simultaneously Local and Remote. -/
def exclusiveInv (s : CacheState) : Prop :=
  ∀ k, ¬ bothLocalAndRemote s k

/-- Success condition for one operation in a space-conservation chain:
every collaborator call succeeds (hence, by the control flow above, the
operation returns 0), and upload is only invoked on a key not currently
in the cache directory. -/
def opOkSpace (s : CacheState) : GatewayOp → Bool
  | .down env _ _ => env.allOk
  | .up env _ _ k _ => env.allOk && (segLookup s.localSegs k).isNone
  | .rem env _ => env.allOk

/-- Every operation of the sequence satisfies `opOkSpace` in the state
in which it runs. -/
def chainOkSpace (cdir : String) : CacheState → List GatewayOp → Bool
  | _, [] => true
  | s, op :: rest =>
    opOkSpace s op && chainOkSpace cdir (applyOp cdir op s).state rest

/-- Success condition for one operation in a mutual-exclusivity chain:
every collaborator call succeeds, and upload is only invoked on a key
not currently in the remote store. -/
def opOkExcl (s : CacheState) : GatewayOp → Bool
  | .down env _ _ => env.allOk
  | .up env _ _ k _ => env.allOk && !(decide (k ∈ s.remote))
  | .rem env _ => env.allOk

/-- Every operation of the sequence satisfies `opOkExcl` in the state
in which it runs. -/
def chainOkExcl (cdir : String) : CacheState → List GatewayOp → Bool
  | _, [] => true
  | s, op :: rest =>
    opOkExcl s op && chainOkExcl cdir (applyOp cdir op s).state rest

/-! ### Helper lemmas about the cache directory listing -/

theorem segLookup_cons_pos {g : Seg} {l : List Seg} {k : Key} (h : g.key = k) :
    segLookup (g :: l) k = some g := by
  simp [segLookup, h]

theorem segLookup_cons_neg {g : Seg} {l : List Seg} {k : Key} (h : g.key ≠ k) :
    segLookup (g :: l) k = segLookup l k := by
  simp [segLookup, h]

theorem segErase_cons_pos {g : Seg} {l : List Seg} {k : Key} (h : g.key = k) :
    segErase (g :: l) k = segErase l k := by
  simp [segErase, h]

theorem segErase_cons_neg {g : Seg} {l : List Seg} {k : Key} (h : g.key ≠ k) :
    segErase (g :: l) k = g :: segErase l k := by
  simp [segErase, h]

theorem segTouch_cons_pos {g : Seg} {l : List Seg} {k : Key} {n : Nat}
    (h : g.key = k) : segTouch (g :: l) k n = ⟨g.key, g.size, n⟩ :: segTouch l k n := by
  simp [segTouch, h]

theorem segTouch_cons_neg {g : Seg} {l : List Seg} {k : Key} {n : Nat}
    (h : g.key ≠ k) : segTouch (g :: l) k n = g :: segTouch l k n := by
  simp [segTouch, h]

theorem segKeys_cons (g : Seg) (l : List Seg) :
    segKeys (g :: l) = g.key :: segKeys l := rfl

theorem segLookup_eq_none_iff (l : List Seg) (k : Key) :
    segLookup l k = none ↔ k ∉ segKeys l := by
  induction l with
  | nil => simp [segLookup, segKeys]
  | cons g l ih =>
    by_cases h : g.key = k
    · rw [segLookup_cons_pos h, segKeys_cons]
      simp [h]
    · rw [segLookup_cons_neg h, segKeys_cons, ih]
      simp only [List.mem_cons, not_or]
      constructor
      · intro hk
        exact ⟨fun he => h he.symm, hk⟩
      · exact And.right

theorem segLookup_isSome_iff (l : List Seg) (k : Key) :
    (segLookup l k).isSome = true ↔ k ∈ segKeys l := by
  rcases hl : segLookup l k with _ | g
  · simpa using (segLookup_eq_none_iff l k).mp hl
  · simp only [Option.isSome_some, true_iff]
    by_contra hk
    rw [← segLookup_eq_none_iff] at hk
    rw [hl] at hk
    exact Option.noConfusion hk

theorem mem_segKeys_segErase {l : List Seg} {k k' : Key} :
    k' ∈ segKeys (segErase l k) ↔ k' ∈ segKeys l ∧ k' ≠ k := by
  induction l with
  | nil => simp [segErase, segKeys]
  | cons g l ih =>
    by_cases h : g.key = k
    · rw [segErase_cons_pos h, ih, segKeys_cons, List.mem_cons]
      constructor
      · rintro ⟨hm, hne⟩
        exact ⟨Or.inr hm, hne⟩
      · rintro ⟨hm | hm, hne⟩
        · rw [hm, h] at hne
          exact absurd rfl hne
        · exact ⟨hm, hne⟩
    · rw [segErase_cons_neg h, segKeys_cons, segKeys_cons, List.mem_cons,
        List.mem_cons, ih]
      constructor
      · rintro (he | hm)
        · refine ⟨Or.inl he, ?_⟩
          rw [he]
          exact h
        · exact ⟨Or.inr hm.1, hm.2⟩
      · rintro ⟨he | hm, hne⟩
        · exact Or.inl he
        · exact Or.inr ⟨hm, hne⟩

theorem not_mem_segKeys_segErase_self (l : List Seg) (k : Key) :
    k ∉ segKeys (segErase l k) := by
  intro h
  exact (mem_segKeys_segErase.mp h).2 rfl

theorem segErase_of_not_mem {l : List Seg} {k : Key} (h : k ∉ segKeys l) :
    segErase l k = l := by
  induction l with
  | nil => rfl
  | cons g l ih =>
    rw [segKeys_cons, List.mem_cons, not_or] at h
    have hk : g.key ≠ k := fun he => h.1 he.symm
    rw [segErase_cons_neg hk, ih h.2]

theorem segErase_segErase (l : List Seg) (k : Key) :
    segErase (segErase l k) k = segErase l k :=
  segErase_of_not_mem (not_mem_segKeys_segErase_self l k)

theorem segErase_segInsert (l : List Seg) (k : Key) (sz : Nat) :
    segErase (segInsert l k sz) k = segErase l k := by
  rw [segInsert, segErase_cons_pos rfl, segErase_segErase]

theorem segsWF_segErase (l : List Seg) (k : Key) (h : segsWF l) :
    segsWF (segErase l k) := by
  induction l with
  | nil => exact h
  | cons g l ih =>
    rw [segsWF, segKeys_cons, List.nodup_cons] at h
    by_cases hk : g.key = k
    · rw [segErase_cons_pos hk]
      exact ih h.2
    · rw [segErase_cons_neg hk]
      rw [segsWF, segKeys_cons, List.nodup_cons]
      refine ⟨fun hm => h.1 (mem_segKeys_segErase.mp hm).1, ih h.2⟩

theorem segsWF_segInsert (l : List Seg) (k : Key) (sz : Nat) (h : segsWF l) :
    segsWF (segInsert l k sz) := by
  rw [segInsert, segsWF, segKeys_cons, List.nodup_cons]
  exact ⟨not_mem_segKeys_segErase_self l k, segsWF_segErase l k h⟩

theorem sumLocal_cons (g : Seg) (l : List Seg) :
    sumLocal (g :: l) = (g.size : Int) + sumLocal l := by
  simp [sumLocal]

theorem sumLocal_segErase_of_lookup {l : List Seg} {k : Key} {g : Seg}
    (hwf : segsWF l) (h : segLookup l k = some g) :
    sumLocal (segErase l k) = sumLocal l - (g.size : Int) := by
  induction l with
  | nil => exact Option.noConfusion h
  | cons a l ih =>
    rw [segsWF, segKeys_cons, List.nodup_cons] at hwf
    by_cases hk : a.key = k
    · rw [segLookup_cons_pos hk, Option.some.injEq] at h
      have hnm : k ∉ segKeys l := hk ▸ hwf.1
      rw [segErase_cons_pos hk, segErase_of_not_mem hnm, ← h, sumLocal_cons]
      ring
    · rw [segLookup_cons_neg hk] at h
      rw [segErase_cons_neg hk, sumLocal_cons, sumLocal_cons, ih hwf.2 h]
      ring

theorem sumLocal_segTouch (l : List Seg) (k : Key) (n : Nat) :
    sumLocal (segTouch l k n) = sumLocal l := by
  induction l with
  | nil => rfl
  | cons g l ih =>
    by_cases hk : g.key = k
    · rw [segTouch_cons_pos hk, sumLocal_cons, sumLocal_cons, ih]
    · rw [segTouch_cons_neg hk, sumLocal_cons, sumLocal_cons, ih]

theorem segKeys_segTouch (l : List Seg) (k : Key) (n : Nat) :
    segKeys (segTouch l k n) = segKeys l := by
  induction l with
  | nil => rfl
  | cons g l ih =>
    by_cases hk : g.key = k
    · rw [segTouch_cons_pos hk, segKeys_cons, segKeys_cons, ih]
    · rw [segTouch_cons_neg hk, segKeys_cons, segKeys_cons, ih]

theorem segsWF_segTouch (l : List Seg) (k : Key) (n : Nat) (h : segsWF l) :
    segsWF (segTouch l k n) := by
  rw [segsWF, segKeys_segTouch]
  exact h

/-! ### Helper lemmas about the remote store -/

theorem remoteErase_cons_pos {x k : Key} {r : List Key} (h : x = k) :
    remoteErase (x :: r) k = remoteErase r k := by
  simp [remoteErase, h]

theorem remoteErase_cons_neg {x k : Key} {r : List Key} (h : x ≠ k) :
    remoteErase (x :: r) k = x :: remoteErase r k := by
  simp [remoteErase, h]

theorem mem_remoteErase {r : List Key} {k k' : Key} :
    k' ∈ remoteErase r k ↔ k' ∈ r ∧ k' ≠ k := by
  induction r with
  | nil => simp [remoteErase]
  | cons x r ih =>
    by_cases hx : x = k
    · rw [remoteErase_cons_pos hx, ih, List.mem_cons]
      constructor
      · rintro ⟨hm, hne⟩
        exact ⟨Or.inr hm, hne⟩
      · rintro ⟨hm | hm, hne⟩
        · rw [hm, hx] at hne
          exact absurd rfl hne
        · exact ⟨hm, hne⟩
    · rw [remoteErase_cons_neg hx, List.mem_cons, List.mem_cons, ih]
      constructor
      · rintro (he | hm)
        · refine ⟨Or.inl he, ?_⟩
          rw [he]
          exact hx
        · exact ⟨Or.inr hm.1, hm.2⟩
      · rintro ⟨he | hm, hne⟩
        · exact Or.inl he
        · exact Or.inr ⟨hm, hne⟩

theorem not_mem_remoteErase_self (r : List Key) (k : Key) :
    k ∉ remoteErase r k := by
  intro h
  exact (mem_remoteErase.mp h).2 rfl

theorem remoteErase_of_not_mem {r : List Key} {k : Key} (h : k ∉ r) :
    remoteErase r k = r := by
  induction r with
  | nil => rfl
  | cons x r ih =>
    rw [List.mem_cons, not_or] at h
    have hx : x ≠ k := fun he => h.1 he.symm
    rw [remoteErase_cons_neg hx, ih h.2]

theorem mem_remoteInsert {r : List Key} {k k' : Key} :
    k' ∈ remoteInsert r k ↔ k' ∈ r ∨ k' = k := by
  by_cases h : k ∈ r
  · rw [remoteInsert, if_pos h]
    constructor
    · exact Or.inl
    · rintro (hm | he)
      · exact hm
      · rw [he]
        exact h
  · rw [remoteInsert, if_neg h, List.mem_cons]
    exact or_comm

/-! ### Claim theorems -/

/-- C1 (code_bug): the claim describes the eviction policy of the
planner's own documentation (src lines 89-104, spec §4.3), but
`evict_segments` as compiled is a stub: for every protected key and
every state it evicts nothing and returns 0, and in particular it never
returns `CANNOT_EVICT` — not even in the documented infeasible case
(protected key the unique holder of the minimum reference count). -/
theorem evict_segments_is_stub :
    (∀ keep s, evict_segments keep s = (0, s)) ∧
    (∀ keep s, (evict_segments keep s).1 ≠ CANNOT_EVICT) ∧
    (evict_segments "A" ⟨10, -3, [⟨"B", 8, 0⟩], []⟩ = (0, ⟨10, -3, [⟨"B", 8, 0⟩], []⟩)) :=
  ⟨fun _ _ => rfl, fun _ _ => by simp [evict_segments, CANNOT_EVICT], rfl⟩

/-- C4 (code_bug): because `evict_segments` is a stub that returns 0
without freeing anything, a download that drives `Remaining_space`
negative returns success with the counter still negative: with
`Remaining_space = 5` and a fetched segment of 8 bytes, all
collaborators succeeding, `cache_layer_download_seg` returns 0 and
leaves `Remaining_space = -3`. -/
theorem download_returns_with_negative_space :
    (cache_layer_download_seg "cache" ⟨true, 8, true, true, true, true, true, 3⟩
      "t" "k" ⟨10, 5, [], ["k"]⟩).retval = 0 ∧
    (cache_layer_download_seg "cache" ⟨true, 8, true, true, true, true, true, 3⟩
      "t" "k" ⟨10, 5, [], ["k"]⟩).state.remaining = -3 ∧
    (cache_layer_download_seg "cache" ⟨true, 8, true, true, true, true, true, 3⟩
      "t" "k" ⟨10, 5, [], ["k"]⟩).state.remaining < 0 := by
  refine ⟨rfl, rfl, ?_⟩
  decide

/-- C10 (confirmed): `cache_layer_init` returns 0 for every argument
pair and sets `Remaining_space` to `total_space − init_space` with no
validation, so `init_space > total_space` leaves the counter negative
from startup (e.g. `cache_layer_init 10 20` starts at `-10`). -/
theorem cache_layer_init_unchecked :
    (∀ total_space init_space : Int,
        (cache_layer_init total_space init_space).1 = 0 ∧
        (cache_layer_init total_space init_space).2.remaining =
          total_space - init_space) ∧
    (cache_layer_init 10 20).2.remaining < 0 :=
  ⟨fun _ _ => ⟨rfl, rfl⟩, by decide⟩

/-- C2 (counterexample): two successful uploads of the same key break
space conservation.  Starting from an empty 1000-byte cache, uploading
segment `A` (compressed size 400) twice succeeds both times, but the
second upload overwrites the cached file and reserves 400 bytes again:
the end state has `remaining = 200` while `total − Σ stored_size =
1000 − 400 = 600`. -/
theorem space_conservation_cex :
    (applyOp "cache" (.up ⟨some 400, true, true, true, 1⟩ "f" 0 "A" 10)
      ⟨1000, 1000, [], []⟩).retval = 0 ∧
    (applyOp "cache" (.up ⟨some 400, true, true, true, 2⟩ "f" 0 "A" 10)
      (applyOp "cache" (.up ⟨some 400, true, true, true, 1⟩ "f" 0 "A" 10)
        ⟨1000, 1000, [], []⟩).state).retval = 0 ∧
    ¬ spaceInv (runOps "cache"
      [.up ⟨some 400, true, true, true, 1⟩ "f" 0 "A" 10,
       .up ⟨some 400, true, true, true, 2⟩ "f" 0 "A" 10]
      ⟨1000, 1000, [], []⟩) := by
  refine ⟨by decide, by decide, ?_⟩
  unfold spaceInv
  decide

/-- C3 (counterexample): a successful sequence leaves a key both Local
and Remote.  From a cache holding only `B` (800 of 1000 bytes used) and
an empty remote store: uploading `A` (compressed size 400) finds no
room and pushes `A` to the remote store; removing `B` frees the space;
uploading `A` again now fits, stays local, and never deletes the remote
copy — ending with `A` both in the cache directory and in the remote
store, every operation having returned success. -/
theorem mutual_exclusivity_cex :
    (⟨1000, 200, [⟨"B", 800, 0⟩], []⟩ : CacheState).remote = [] ∧
    (applyOp "cache" (.up ⟨some 400, true, true, true, 1⟩ "f" 0 "A" 10)
      ⟨1000, 200, [⟨"B", 800, 0⟩], []⟩).retval = 0 ∧
    (applyOp "cache" (.rem ⟨true, true, true⟩ "B")
      (applyOp "cache" (.up ⟨some 400, true, true, true, 1⟩ "f" 0 "A" 10)
        ⟨1000, 200, [⟨"B", 800, 0⟩], []⟩).state).retval = 0 ∧
    (applyOp "cache" (.up ⟨some 400, true, true, true, 2⟩ "f" 0 "A" 10)
      (applyOp "cache" (.rem ⟨true, true, true⟩ "B")
        (applyOp "cache" (.up ⟨some 400, true, true, true, 1⟩ "f" 0 "A" 10)
          ⟨1000, 200, [⟨"B", 800, 0⟩], []⟩).state).state).retval = 0 ∧
    bothLocalAndRemote (runOps "cache"
      [.up ⟨some 400, true, true, true, 1⟩ "f" 0 "A" 10,
       .rem ⟨true, true, true⟩ "B",
       .up ⟨some 400, true, true, true, 2⟩ "f" 0 "A" 10]
      ⟨1000, 200, [⟨"B", 800, 0⟩], []⟩) "A" := by
    refine ⟨rfl, by decide, by decide, by decide, ?_⟩
    unfold bothLocalAndRemote isLocal
    decide

/-- C8 (counterexample): a failing `cloud_get_object` inside a download
is not surfaced: with the remote get reporting failure and every local
collaborator succeeding, `cache_layer_download_seg` of an uncached key
returns 0 — and the events show it continued past the failed get all
the way to deleting the remote copy. -/
theorem remote_error_not_surfaced_cex :
    (cache_layer_download_seg "cache" ⟨false, 0, true, true, true, true, true, 3⟩
      "t" "A" ⟨100, 50, [], ["A"]⟩).retval = 0 ∧
    (cache_layer_download_seg "cache" ⟨false, 0, true, true, true, true, true, 3⟩
      "t" "A" ⟨100, 50, [], ["A"]⟩).events =
      [CEvent.cloudGet "A" false, CEvent.cloudDelete "A" true] ∧
    ¬ (cache_layer_download_seg "cache" ⟨false, 0, true, true, true, true, true, 3⟩
      "t" "A" ⟨100, 50, [], ["A"]⟩).retval < 0 := by
  refine ⟨by decide, by decide, by decide⟩

theorem sumLocal_segInsert (l : List Seg) (k : Key) (sz : Nat) :
    sumLocal (segInsert l k sz) = (sz : Int) + sumLocal (segErase l k) := by
  rw [segInsert, sumLocal_cons]

theorem download_space (cdir t : String) (k : Key) (env : DownloadEnv)
    (s : CacheState) (ha : env.allOk = true)
    (hwf : segsWF s.localSegs) (hinv : spaceInv s) :
    segsWF (cache_layer_download_seg cdir env t k s).state.localSegs ∧
    spaceInv (cache_layer_download_seg cdir env t k s).state := by
  obtain ⟨cg, fs, ls, tc, de, re, cd, nw⟩ := env
  simp only [DownloadEnv.allOk, Bool.and_eq_true] at ha
  obtain ⟨⟨⟨⟨⟨hcg, hls⟩, hto⟩, hde⟩, hre⟩, hcd⟩ := ha
  subst hcg hls hto hde hre hcd
  rw [spaceInv] at hinv
  rcases hl : segLookup s.localSegs k with _ | g
  · have hnm : k ∉ segKeys s.localSegs := (segLookup_eq_none_iff _ _).mp hl
    have her : segErase s.localSegs k = s.localSegs := segErase_of_not_mem hnm
    have hswf : segsWF (segTouch (segInsert s.localSegs k fs) k nw) :=
      segsWF_segTouch _ _ _ (segsWF_segInsert _ _ _ hwf)
    have hsum : sumLocal (segTouch (segInsert s.localSegs k fs) k nw) =
        (fs : Int) + sumLocal s.localSegs := by
      rw [sumLocal_segTouch, sumLocal_segInsert, her]
    by_cases hrem : s.remaining - (fs : Int) < 0
    · simp only [cache_layer_download_seg, downloadWith, hl, evict_segments,
        CANNOT_EVICT, cloud_delete_object, if_pos hrem, spaceInv]
      simp [hrem, hswf, hsum]
      omega
    · simp only [cache_layer_download_seg, downloadWith, hl, evict_segments,
        CANNOT_EVICT, cloud_delete_object, spaceInv]
      simp [hrem, hswf, hsum]
      omega
  · simp only [cache_layer_download_seg, downloadWith, hl, spaceInv]
    simp only [if_pos rfl, if_true]
    constructor
    · exact segsWF_segTouch _ _ _ hwf
    · simp [sumLocal_segTouch]
      omega

theorem upload_space (cdir f : String) (off len : Int) (k : Key)
    (env : UploadEnv) (s : CacheState) (ha : env.allOk = true)
    (hnl : segLookup s.localSegs k = none)
    (hwf : segsWF s.localSegs) (hinv : spaceInv s) :
    segsWF (cache_layer_upload_seg cdir env f off k len s).state.localSegs ∧
    spaceInv (cache_layer_upload_seg cdir env f off k len s).state := by
  obtain ⟨cr, put, re, tc, nw⟩ := env
  simp only [UploadEnv.allOk, Bool.and_eq_true, Option.isSome_iff_exists] at ha
  obtain ⟨⟨⟨⟨clen, hcr⟩, hput⟩, hre⟩, hto⟩ := ha
  subst hcr hput hre hto
  rw [spaceInv] at hinv
  have hnm : k ∉ segKeys s.localSegs := (segLookup_eq_none_iff _ _).mp hnl
  have her : segErase s.localSegs k = s.localSegs := segErase_of_not_mem hnm
  by_cases hrem : s.remaining < (clen : Int)
  · simp only [cache_layer_upload_seg, cloud_put_object, spaceInv]
    simp [hrem, segErase_segInsert, her, hwf]
    omega
  · simp only [cache_layer_upload_seg, cloud_put_object, spaceInv]
    have hswf : segsWF (segTouch (segInsert s.localSegs k clen) k nw) :=
      segsWF_segTouch _ _ _ (segsWF_segInsert _ _ _ hwf)
    have hsum : sumLocal (segTouch (segInsert s.localSegs k clen) k nw) =
        (clen : Int) + sumLocal s.localSegs := by
      rw [sumLocal_segTouch, sumLocal_segInsert, her]
    simp [hrem, hswf, hsum]
    omega

theorem remove_space (cdir : String) (k : Key) (env : RemoveEnv)
    (s : CacheState) (ha : env.allOk = true)
    (hwf : segsWF s.localSegs) (hinv : spaceInv s) :
    segsWF (cache_layer_remove_seg cdir env k s).state.localSegs ∧
    spaceInv (cache_layer_remove_seg cdir env k s).state := by
  obtain ⟨ls, re, cd⟩ := env
  simp only [RemoveEnv.allOk, Bool.and_eq_true] at ha
  obtain ⟨⟨hls, hre⟩, hcd⟩ := ha
  subst hls hre hcd
  rw [spaceInv] at hinv
  rcases hl : segLookup s.localSegs k with _ | g
  · simp only [cache_layer_remove_seg, hl, cloud_delete_object, spaceInv]
    simp [hwf]
    omega
  · simp only [cache_layer_remove_seg, hl, spaceInv]
    have hsum : sumLocal (segErase s.localSegs k) =
        sumLocal s.localSegs - (g.size : Int) :=
      sumLocal_segErase_of_lookup hwf hl
    simp [segsWF_segErase _ _ hwf, hsum]
    omega

/-- C2 (corrected, theorem): space conservation holds for every
sequence of download/upload/remove operations in which every
collaborator call succeeds and upload is never invoked on a key already
present in the cache directory: at every point between operations,
`remaining_space = total_space − Σ stored_size of Local segments`. -/
theorem space_conservation_ok_chain (cdir : String) (ops : List GatewayOp)
    (s : CacheState) (hwf : segsWF s.localSegs) (hinv : spaceInv s)
    (hchain : chainOkSpace cdir s ops = true) :
    spaceInv (runOps cdir ops s) := by
  induction ops generalizing s with
  | nil => exact hinv
  | cons op rest ih =>
    simp only [chainOkSpace, Bool.and_eq_true] at hchain
    obtain ⟨hop, hrest⟩ := hchain
    rw [runOps]
    cases op with
    | down env t k =>
      simp only [opOkSpace] at hop
      have h := download_space cdir t k env s hop hwf hinv
      exact ih _ h.1 h.2 hrest
    | up env f o k l =>
      simp only [opOkSpace, Bool.and_eq_true, Option.isNone_iff_eq_none] at hop
      have h := upload_space cdir f o l k env s hop.1 hop.2 hwf hinv
      exact ih _ h.1 h.2 hrest
    | rem env k =>
      simp only [opOkSpace] at hop
      have h := remove_space cdir k env s hop hwf hinv
      exact ih _ h.1 h.2 hrest

/-- C2 witness: a concrete all-success chain — upload a 400-byte
segment and download another of 100 bytes into a 1000-byte cache —
satisfies the chain hypotheses, and space conservation holds at its
end. -/
theorem space_conservation_ok_chain_witness :
    spaceInv (runOps "cache"
      [.up ⟨some 400, true, true, true, 1⟩ "f" 0 "A" 10,
       .down ⟨true, 100, true, true, true, true, true, 2⟩ "t" "B"]
      ⟨1000, 1000, [], []⟩) :=
  space_conservation_ok_chain "cache"
    [.up ⟨some 400, true, true, true, 1⟩ "f" 0 "A" 10,
     .down ⟨true, 100, true, true, true, true, true, 2⟩ "t" "B"]
    ⟨1000, 1000, [], []⟩ (by simp [segsWF, segKeys]) (by simp [spaceInv, sumLocal])
    (by decide)

theorem segKeys_segInsert (l : List Seg) (k : Key) (sz : Nat) :
    segKeys (segInsert l k sz) = k :: segKeys (segErase l k) := rfl

theorem exclusiveInv_iff (s : CacheState) :
    exclusiveInv s ↔ ∀ k, k ∈ segKeys s.localSegs → k ∉ s.remote := by
  simp only [exclusiveInv, bothLocalAndRemote, isLocal, segLookup_isSome_iff,
    not_and]

theorem download_exclusive (cdir t : String) (k : Key) (env : DownloadEnv)
    (s : CacheState) (ha : env.allOk = true) (hexc : exclusiveInv s) :
    exclusiveInv (cache_layer_download_seg cdir env t k s).state := by
  rw [exclusiveInv_iff] at hexc ⊢
  obtain ⟨cg, fs, ls, tc, de, re, cd, nw⟩ := env
  simp only [DownloadEnv.allOk, Bool.and_eq_true] at ha
  obtain ⟨⟨⟨⟨⟨hcg, hls⟩, htc⟩, hde⟩, hre⟩, hcd⟩ := ha
  subst hcg hls htc hde hre hcd
  rcases hl : segLookup s.localSegs k with _ | g
  · by_cases hrem : s.remaining - (fs : Int) < 0
    · simp only [cache_layer_download_seg, downloadWith, hl, evict_segments,
        CANNOT_EVICT, cloud_delete_object]
      simp only [hrem]
      simp
      intro k' hk' hr'
      rw [segKeys_segTouch, segKeys_segInsert, List.mem_cons] at hk'
      have h2 := mem_remoteErase.mp hr'
      rcases hk' with he | hk'
      · exact h2.2 he
      · exact hexc k' (mem_segKeys_segErase.mp hk').1 h2.1
    · simp only [cache_layer_download_seg, downloadWith, hl, evict_segments,
        CANNOT_EVICT, cloud_delete_object]
      simp only [hrem]
      simp
      intro k' hk' hr'
      rw [segKeys_segTouch, segKeys_segInsert, List.mem_cons] at hk'
      have h2 := mem_remoteErase.mp hr'
      rcases hk' with he | hk'
      · exact h2.2 he
      · exact hexc k' (mem_segKeys_segErase.mp hk').1 h2.1
  · simp only [cache_layer_download_seg, downloadWith, hl]
    simp
    intro k' hk' hr'
    rw [segKeys_segTouch] at hk'
    exact hexc k' hk' hr'

theorem upload_exclusive (cdir f : String) (off len : Int) (k : Key)
    (env : UploadEnv) (s : CacheState) (ha : env.allOk = true)
    (hnr : k ∉ s.remote) (hexc : exclusiveInv s) :
    exclusiveInv (cache_layer_upload_seg cdir env f off k len s).state := by
  rw [exclusiveInv_iff] at hexc ⊢
  obtain ⟨cr, put, re, tc, nw⟩ := env
  simp only [UploadEnv.allOk, Bool.and_eq_true, Option.isSome_iff_exists] at ha
  obtain ⟨⟨⟨⟨clen, hcr⟩, hput⟩, hre⟩, htc⟩ := ha
  subst hcr hput hre htc
  by_cases hrem : s.remaining < (clen : Int)
  · simp only [cache_layer_upload_seg, cloud_put_object]
    simp only [hrem]
    simp [segErase_segInsert]
    intro k' hk' hr'
    have h1 := mem_segKeys_segErase.mp hk'
    rcases mem_remoteInsert.mp hr' with h2 | h2
    · exact hexc k' h1.1 h2
    · exact h1.2 h2
  · simp only [cache_layer_upload_seg]
    simp only [hrem]
    simp
    intro k' hk' hr'
    rw [segKeys_segTouch, segKeys_segInsert, List.mem_cons] at hk'
    rcases hk' with he | hk'
    · rw [he] at hr'
      exact hnr hr'
    · exact hexc k' (mem_segKeys_segErase.mp hk').1 hr'

theorem remove_exclusive (cdir : String) (k : Key) (env : RemoveEnv)
    (s : CacheState) (ha : env.allOk = true) (hexc : exclusiveInv s) :
    exclusiveInv (cache_layer_remove_seg cdir env k s).state := by
  rw [exclusiveInv_iff] at hexc ⊢
  obtain ⟨ls, re, cd⟩ := env
  simp only [RemoveEnv.allOk, Bool.and_eq_true] at ha
  obtain ⟨⟨hls, hre⟩, hcd⟩ := ha
  subst hls hre hcd
  rcases hl : segLookup s.localSegs k with _ | g
  · simp only [cache_layer_remove_seg, hl, cloud_delete_object]
    simp
    intro k' hk' hr'
    exact hexc k' hk' (mem_remoteErase.mp hr').1
  · simp only [cache_layer_remove_seg, hl]
    simp
    intro k' hk' hr'
    exact hexc k' (mem_segKeys_segErase.mp hk').1 hr'

/-- C3 (corrected, theorem): mutual exclusivity holds for every
sequence of download/upload/remove operations in which every
collaborator call succeeds and upload is never invoked on a key
currently present in the remote store: at every point between
operations, no key is simultaneously Local and Remote. -/
theorem mutual_exclusivity_ok_chain (cdir : String) (ops : List GatewayOp)
    (s : CacheState) (hexc : exclusiveInv s)
    (hchain : chainOkExcl cdir s ops = true) :
    exclusiveInv (runOps cdir ops s) := by
  induction ops generalizing s with
  | nil => exact hexc
  | cons op rest ih =>
    simp only [chainOkExcl, Bool.and_eq_true] at hchain
    obtain ⟨hop, hrest⟩ := hchain
    rw [runOps]
    cases op with
    | down env t k =>
      simp only [opOkExcl] at hop
      exact ih _ (download_exclusive cdir t k env s hop hexc) hrest
    | up env f o k l =>
      simp only [opOkExcl, Bool.and_eq_true, Bool.not_eq_true',
        decide_eq_false_iff_not] at hop
      exact ih _ (upload_exclusive cdir f o l k env s hop.1 hop.2 hexc) hrest
    | rem env k =>
      simp only [opOkExcl] at hop
      exact ih _ (remove_exclusive cdir k env s hop hexc) hrest

/-- C3 witness: a concrete all-success chain — download segment `A`
from the remote store into an empty cache, then remove it — satisfies
the chain hypotheses, and no key ends up both Local and Remote. -/
theorem mutual_exclusivity_ok_chain_witness :
    exclusiveInv (runOps "cache"
      [.down ⟨true, 100, true, true, true, true, true, 2⟩ "t" "A",
       .rem ⟨true, true, true⟩ "A"]
      ⟨1000, 1000, [], ["A"]⟩) :=
  mutual_exclusivity_ok_chain "cache"
    [.down ⟨true, 100, true, true, true, true, true, 2⟩ "t" "A",
     .rem ⟨true, true, true⟩ "A"]
    ⟨1000, 1000, [], ["A"]⟩
    (by intro k; simp [bothLocalAndRemote, isLocal, segLookup]) (by decide)

theorem segLookup_segErase_self (l : List Seg) (k : Key) :
    segLookup (segErase l k) k = none :=
  (segLookup_eq_none_iff _ _).mpr (not_mem_segKeys_segErase_self l k)

theorem mem_segTouch_of_ne {l : List Seg} {k : Key} {n : Nat} {g : Seg}
    (hg : g ∈ l) (hne : g.key ≠ k) : g ∈ segTouch l k n := by
  induction l with
  | nil => exact absurd hg (List.not_mem_nil g)
  | cons a l ih =>
    rcases List.mem_cons.mp hg with he | hm
    · subst he
      rw [segTouch_cons_neg hne]
      exact List.mem_cons_self _ _
    · by_cases hak : a.key = k
      · rw [segTouch_cons_pos hak]
        exact List.mem_cons_of_mem _ (ih hm)
      · rw [segTouch_cons_neg hak]
        exact List.mem_cons_of_mem _ (ih hm)

/-- C5 (confirmed): when a download of a locally absent key finds
insufficient space and the eviction routine reports `CANNOT_EVICT`
(leaving the state alone, as the planner contract documents), the
operation reverses the reservation, decompresses the just-fetched
bytes to the target, deletes the local copy, and returns success: the
end state equals the starting state (net pass-through) and the events
are exactly the fetch and the decompression to the target. -/
theorem download_infeasible_passthrough
    (ev : Key → CacheState → Int × CacheState) (cdir t : String) (k : Key)
    (env : DownloadEnv) (s : CacheState)
    (ha : env.allOk = true)
    (habs : segLookup s.localSegs k = none)
    (hshort : s.remaining - (env.fetchedSize : Int) < 0)
    (hev : ∀ st, ev k st = (CANNOT_EVICT, st)) :
    (downloadWith ev cdir env t k s).retval = 0 ∧
    (downloadWith ev cdir env t k s).state = s ∧
    (downloadWith ev cdir env t k s).events =
      [CEvent.cloudGet k true,
       CEvent.decompressTo (cdir ++ "/" ++ k) t true] := by
  obtain ⟨cg, fs, ls, tc, de, re, cd, nw⟩ := env
  simp only [DownloadEnv.allOk, Bool.and_eq_true] at ha
  obtain ⟨⟨⟨⟨⟨hcg, hls⟩, htc⟩, hde⟩, hre⟩, hcd⟩ := ha
  subst hcg hls htc hde hre hcd
  simp only at hshort
  have hnm : k ∉ segKeys s.localSegs := (segLookup_eq_none_iff _ _).mp habs
  have her : segErase s.localSegs k = s.localSegs := segErase_of_not_mem hnm
  simp only [downloadWith, habs, hev]
  simp [hshort, segErase_segInsert, her, sub_add_cancel]

/-- C5 witness: with an eviction routine answering `CANNOT_EVICT`, a
10-byte-capacity cache at `remaining = 5` downloading an absent 8-byte
segment passes the bytes through and ends in its starting state. -/
theorem download_infeasible_passthrough_witness :
    (downloadWith (fun _ st => (CANNOT_EVICT, st)) "cache"
      ⟨true, 8, true, true, true, true, true, 3⟩ "t" "A"
      ⟨10, 5, [], ["A"]⟩).retval = 0 ∧
    (downloadWith (fun _ st => (CANNOT_EVICT, st)) "cache"
      ⟨true, 8, true, true, true, true, true, 3⟩ "t" "A"
      ⟨10, 5, [], ["A"]⟩).state = ⟨10, 5, [], ["A"]⟩ ∧
    (downloadWith (fun _ st => (CANNOT_EVICT, st)) "cache"
      ⟨true, 8, true, true, true, true, true, 3⟩ "t" "A"
      ⟨10, 5, [], ["A"]⟩).events =
      [CEvent.cloudGet "A" true,
       CEvent.decompressTo ("cache" ++ "/" ++ "A") "t" true] :=
  download_infeasible_passthrough (fun _ st => (CANNOT_EVICT, st)) "cache" "t"
    "A" ⟨true, 8, true, true, true, true, true, 3⟩ ⟨10, 5, [], ["A"]⟩
    rfl rfl (by decide) (fun _ => rfl)

/-- C6 (confirmed): upload decides by the single threshold
`remaining_space < compressed_size`.  Below the threshold the
compressed bytes are pushed to the remote store and the local
compressed file is deleted, with `remaining_space` unchanged; otherwise
the timestamp is touched, exactly `compressed_size` is reserved, the
segment stays local, and no remote put is performed. -/
theorem upload_threshold_behavior (cdir f : String) (off len : Int) (k : Key)
    (env : UploadEnv) (s : CacheState) (clen : Nat)
    (hc : env.compressResult = some clen) (ha : env.allOk = true) :
    (s.remaining < (clen : Int) →
      (cache_layer_upload_seg cdir env f off k len s).retval = 0 ∧
      (cache_layer_upload_seg cdir env f off k len s).state.remaining =
        s.remaining ∧
      isLocal (cache_layer_upload_seg cdir env f off k len s).state k = false ∧
      k ∈ (cache_layer_upload_seg cdir env f off k len s).state.remote ∧
      (cache_layer_upload_seg cdir env f off k len s).events =
        [CEvent.cloudPut k true]) ∧
    ((clen : Int) ≤ s.remaining →
      (cache_layer_upload_seg cdir env f off k len s).retval = 0 ∧
      (cache_layer_upload_seg cdir env f off k len s).state.remaining =
        s.remaining - (clen : Int) ∧
      (cache_layer_upload_seg cdir env f off k len s).state.localSegs =
        segTouch (segInsert s.localSegs k clen) k env.now ∧
      (cache_layer_upload_seg cdir env f off k len s).state.remote = s.remote ∧
      (cache_layer_upload_seg cdir env f off k len s).events = []) := by
  obtain ⟨cr, put, re, tc, nw⟩ := env
  simp only [UploadEnv.allOk, Bool.and_eq_true] at ha
  obtain ⟨⟨⟨hcr, hput⟩, hre⟩, htc⟩ := ha
  simp only at hc
  subst hc hput hre htc
  constructor
  · intro hrem
    simp only [cache_layer_upload_seg, cloud_put_object]
    simp [hrem, isLocal, segLookup_segErase_self, segErase_segInsert,
      mem_remoteInsert]
  · intro hrem
    have hrem' : ¬ s.remaining < (clen : Int) := not_lt.mpr hrem
    simp only [cache_layer_upload_seg]
    simp [hrem']

/-- C6 witness: the spec's own example — capacity 1000, 0 used,
uploading a segment of compressed size 400 — stays local and leaves
`remaining_space = 600`. -/
theorem upload_threshold_behavior_witness :
    (cache_layer_upload_seg "cache" ⟨some 400, true, true, true, 7⟩ "f" 0 "A"
      10 ⟨1000, 1000, [], []⟩).retval = 0 ∧
    (cache_layer_upload_seg "cache" ⟨some 400, true, true, true, 7⟩ "f" 0 "A"
      10 ⟨1000, 1000, [], []⟩).state.remaining = 600 ∧
    (cache_layer_upload_seg "cache" ⟨some 400, true, true, true, 7⟩ "f" 0 "A"
      10 ⟨1000, 1000, [], []⟩).events = [] := by
  have h := (upload_threshold_behavior "cache" "f" 0 10 "A"
    ⟨some 400, true, true, true, 7⟩ ⟨1000, 1000, [], []⟩ 400 rfl rfl).2
    (by decide)
  refine ⟨h.1, ?_, h.2.2.2.2⟩
  rw [h.2.1]
  decide

/-- C7 (confirmed): `cache_layer_remove_seg` on a key absent from both
the cache directory and the remote store succeeds as a no-op (returns
0 and leaves the state unchanged), and — from any state where the key
is not simultaneously Local and Remote, the state the Gateway is
required never to produce — removing a key twice in a row, with all
collaborators succeeding, ends in exactly the state a single removal
produces. -/
theorem remove_idempotent (cdir : String) (e1 e2 : RemoveEnv) (k : Key)
    (s : CacheState) (h1 : e1.allOk = true) (h2 : e2.allOk = true)
    (hx : ¬ bothLocalAndRemote s k) :
    ((isLocal s k = false ∧ k ∉ s.remote) →
      (cache_layer_remove_seg cdir e1 k s).retval = 0 ∧
      (cache_layer_remove_seg cdir e1 k s).state = s) ∧
    (cache_layer_remove_seg cdir e2 k
        (cache_layer_remove_seg cdir e1 k s).state).state =
      (cache_layer_remove_seg cdir e1 k s).state := by
  obtain ⟨ls1, re1, cd1⟩ := e1
  obtain ⟨ls2, re2, cd2⟩ := e2
  simp only [RemoveEnv.allOk, Bool.and_eq_true] at h1 h2
  obtain ⟨⟨hls1, hre1⟩, hcd1⟩ := h1
  obtain ⟨⟨hls2, hre2⟩, hcd2⟩ := h2
  subst hls1 hre1 hcd1 hls2 hre2 hcd2
  rcases hl : segLookup s.localSegs k with _ | g
  · constructor
    · rintro ⟨-, hnr⟩
      simp only [cache_layer_remove_seg, hl, cloud_delete_object]
      simp [remoteErase_of_not_mem hnr]
    · simp only [cache_layer_remove_seg, hl, cloud_delete_object]
      simp only [if_pos rfl, if_true]
      simp only [cache_layer_remove_seg, hl]
      simp [remoteErase_of_not_mem (not_mem_remoteErase_self s.remote k)]
  · have hloc : isLocal s k = true := by simp [isLocal, hl]
    have hnr : k ∉ s.remote := fun hm => hx ⟨hloc, hm⟩
    constructor
    · rintro ⟨hfalse, -⟩
      rw [hloc] at hfalse
      exact Bool.noConfusion hfalse
    · simp only [cache_layer_remove_seg, hl]
      simp only [if_pos rfl, if_true]
      simp only [cache_layer_remove_seg, segLookup_segErase_self,
        cloud_delete_object]
      simp [remoteErase_of_not_mem hnr]

/-- C7 witness: removing the absent key `Z` from a cache and remote
store that do not hold it succeeds as a no-op, and removing it twice
equals removing it once. -/
theorem remove_idempotent_witness :
    ((isLocal ⟨100, 50, [], []⟩ "Z" = false ∧
        "Z" ∉ (⟨100, 50, [], []⟩ : CacheState).remote) →
      (cache_layer_remove_seg "cache" ⟨true, true, true⟩ "Z"
        ⟨100, 50, [], []⟩).retval = 0 ∧
      (cache_layer_remove_seg "cache" ⟨true, true, true⟩ "Z"
        ⟨100, 50, [], []⟩).state = ⟨100, 50, [], []⟩) ∧
    (cache_layer_remove_seg "cache" ⟨true, true, true⟩ "Z"
        (cache_layer_remove_seg "cache" ⟨true, true, true⟩ "Z"
          ⟨100, 50, [], []⟩).state).state =
      (cache_layer_remove_seg "cache" ⟨true, true, true⟩ "Z"
        ⟨100, 50, [], []⟩).state :=
  remove_idempotent "cache" ⟨true, true, true⟩ ⟨true, true, true⟩ "Z"
    ⟨100, 50, [], []⟩ rfl rfl
    (by simp [bothLocalAndRemote, isLocal, segLookup])

/-- C8 (corrected, theorem): failures of the remote object-store calls
are not surfaced.  With every local collaborator succeeding but the
remote call failing, each gateway operation still returns 0, performs
no retry (the failed call appears exactly once in the trace), and
continues the multi-step operation past the failure: a download whose
get failed still caches the file and deletes the remote copy, an
upload whose put failed still deletes the local compressed file, a
remove whose remote delete failed still reports success. -/
theorem remote_errors_ignored (cdir t f : String) (off len : Int) (k : Key)
    (s : CacheState) (fs now clen : Nat)
    (habs : segLookup s.localSegs k = none)
    (hroom : (fs : Int) ≤ s.remaining)
    (hnoroom : s.remaining < (clen : Int)) :
    ((cache_layer_download_seg cdir ⟨false, fs, true, true, true, true, true,
        now⟩ t k s).retval = 0 ∧
      (cache_layer_download_seg cdir ⟨false, fs, true, true, true, true, true,
        now⟩ t k s).events =
        [CEvent.cloudGet k false, CEvent.cloudDelete k true]) ∧
    ((cache_layer_upload_seg cdir ⟨some clen, false, true, true, now⟩ f off k
        len s).retval = 0 ∧
      (cache_layer_upload_seg cdir ⟨some clen, false, true, true, now⟩ f off k
        len s).events = [CEvent.cloudPut k false] ∧
      isLocal (cache_layer_upload_seg cdir ⟨some clen, false, true, true, now⟩
        f off k len s).state k = false) ∧
    ((cache_layer_remove_seg cdir ⟨true, true, false⟩ k s).retval = 0 ∧
      (cache_layer_remove_seg cdir ⟨true, true, false⟩ k s).events =
        [CEvent.cloudDelete k false]) := by
  have hrem : ¬ s.remaining - (fs : Int) < 0 := by omega
  refine ⟨?_, ?_, ?_⟩
  · simp only [cache_layer_download_seg, downloadWith, habs, cloud_delete_object]
    simp [hrem]
  · simp only [cache_layer_upload_seg, cloud_put_object]
    simp [hnoroom, isLocal, segLookup_segErase_self]
  · simp only [cache_layer_remove_seg, habs, cloud_delete_object]
    simp

/-- C8 witness for the amended claim, at a concrete state: key `A`
absent locally, 50 bytes remaining, fetched size 0, compressed size
60. -/
theorem remote_errors_ignored_witness :
    ((cache_layer_download_seg "cache" ⟨false, 0, true, true, true, true, true,
        3⟩ "t" "A" ⟨100, 50, [], ["A"]⟩).retval = 0 ∧
      (cache_layer_download_seg "cache" ⟨false, 0, true, true, true, true, true,
        3⟩ "t" "A" ⟨100, 50, [], ["A"]⟩).events =
        [CEvent.cloudGet "A" false, CEvent.cloudDelete "A" true]) ∧
    ((cache_layer_upload_seg "cache" ⟨some 60, false, true, true, 3⟩ "f" 0 "A"
        9 ⟨100, 50, [], ["A"]⟩).retval = 0 ∧
      (cache_layer_upload_seg "cache" ⟨some 60, false, true, true, 3⟩ "f" 0 "A"
        9 ⟨100, 50, [], ["A"]⟩).events = [CEvent.cloudPut "A" false] ∧
      isLocal (cache_layer_upload_seg "cache" ⟨some 60, false, true, true, 3⟩
        "f" 0 "A" 9 ⟨100, 50, [], ["A"]⟩).state "A" = false) ∧
    ((cache_layer_remove_seg "cache" ⟨true, true, false⟩ "A"
        ⟨100, 50, [], ["A"]⟩).retval = 0 ∧
      (cache_layer_remove_seg "cache" ⟨true, true, false⟩ "A"
        ⟨100, 50, [], ["A"]⟩).events = [CEvent.cloudDelete "A" false]) :=
  remote_errors_ignored "cache" "t" "f" 0 9 "A" ⟨100, 50, [], ["A"]⟩ 0 3 60
    rfl (by decide) (by decide)

/-- C9 (confirmed): downloading a key already present in the cache,
with all collaborators succeeding, returns 0, performs no remote-store
call (its only external event is the codec decompression of the cached
bytes to the target), leaves `total_space`, `remaining_space` and the
remote store unchanged, changes the cache directory only by setting the
key's timestamp to the clock value, and keeps every other cached
segment untouched. -/
theorem download_cache_hit_frame (cdir t : String) (k : Key)
    (env : DownloadEnv) (s : CacheState) (g : Seg)
    (hloc : segLookup s.localSegs k = some g) (ha : env.allOk = true) :
    (cache_layer_download_seg cdir env t k s).retval = 0 ∧
    (cache_layer_download_seg cdir env t k s).state.total = s.total ∧
    (cache_layer_download_seg cdir env t k s).state.remaining = s.remaining ∧
    (cache_layer_download_seg cdir env t k s).state.remote = s.remote ∧
    (cache_layer_download_seg cdir env t k s).state.localSegs =
      segTouch s.localSegs k env.now ∧
    (∀ g' ∈ s.localSegs, g'.key ≠ k →
      g' ∈ (cache_layer_download_seg cdir env t k s).state.localSegs) ∧
    (cache_layer_download_seg cdir env t k s).events =
      [CEvent.decompressTo (cdir ++ "/" ++ k) t true] := by
  obtain ⟨cg, fs, ls, tc, de, re, cd, nw⟩ := env
  simp only [DownloadEnv.allOk, Bool.and_eq_true] at ha
  obtain ⟨⟨⟨⟨⟨hcg, hls⟩, htc⟩, hde⟩, hre⟩, hcd⟩ := ha
  subst hcg hls htc hde hre hcd
  simp only [cache_layer_download_seg, downloadWith, hloc]
  simp
  exact fun g' hm hne => mem_segTouch_of_ne hm hne

/-- C9 witness: a cache hit on key `A` (cached at 60 bytes) touches
only `A`'s timestamp and decompresses, leaving space and remote store
unchanged. -/
theorem download_cache_hit_frame_witness :
    (cache_layer_download_seg "cache" ⟨true, 0, true, true, true, true, true,
      9⟩ "t" "A" ⟨100, 40, [⟨"A", 60, 1⟩], []⟩).retval = 0 ∧
    (cache_layer_download_seg "cache" ⟨true, 0, true, true, true, true, true,
      9⟩ "t" "A" ⟨100, 40, [⟨"A", 60, 1⟩], []⟩).state.total = 100 ∧
    (cache_layer_download_seg "cache" ⟨true, 0, true, true, true, true, true,
      9⟩ "t" "A" ⟨100, 40, [⟨"A", 60, 1⟩], []⟩).state.remaining = 40 ∧
    (cache_layer_download_seg "cache" ⟨true, 0, true, true, true, true, true,
      9⟩ "t" "A" ⟨100, 40, [⟨"A", 60, 1⟩], []⟩).state.remote = [] ∧
    (cache_layer_download_seg "cache" ⟨true, 0, true, true, true, true, true,
      9⟩ "t" "A" ⟨100, 40, [⟨"A", 60, 1⟩], []⟩).state.localSegs =
      segTouch [⟨"A", 60, 1⟩] "A" 9 ∧
    (cache_layer_download_seg "cache" ⟨true, 0, true, true, true, true, true,
      9⟩ "t" "A" ⟨100, 40, [⟨"A", 60, 1⟩], []⟩).events =
      [CEvent.decompressTo ("cache" ++ "/" ++ "A") "t" true] := by
  have h := download_cache_hit_frame "cache" "t" "A"
    ⟨true, 0, true, true, true, true, true, 9⟩ ⟨100, 40, [⟨"A", 60, 1⟩], []⟩
    ⟨"A", 60, 1⟩ (by decide) rfl
  exact ⟨h.1, h.2.1, h.2.2.1, h.2.2.2.1, h.2.2.2.2.1, h.2.2.2.2.2.2⟩
